import Mathlib

/-!
Shallow embedding of `vendor/github.com/pingcap/tidb/statistics/handle.go`
(the statistics cache coordinator of this repository).

The handle keeps an in-memory snapshot cache of per-table statistics,
two refresh watermarks (`LastVersion`, `PrevLastVersion`), three inbound
queues (DDL events, analyze results, load-meta requests) and several
accumulators (per-table deltas, error-rate deltas, query feedback).

External collaborators (the SQL execution layer, the schema catalog, the
statistics reconstruction and persistence routines defined in other files
of the `statistics` package) are passed in as explicit oracle parameters:
the claims under verification condition on their outcomes, while all the
control flow modelled here comes from `handle.go` itself.
-/

namespace Statistics

/-- Modelled from the spec: a histogram is an opaque per-column statistics
object; only its identity, its bucket count (`Len()` in the source) and its
total row count are relevant to the coordinator. The real type lives in
`statistics/histogram.go`, which is outside the excerpt. -/
structure Histogram where
  ID : Int
  bucketsLen : Nat
  totalRowCount : Int
deriving DecidableEq

/-- Modelled from the spec: a cardinality sketch is opaque to the
coordinator; only the points where it is loaded or stored matter. -/
structure CMSketch where
  depth : Nat
  width : Nat
deriving DecidableEq

/-- Modelled from the spec: column metadata reference held by a cached
column statistics object. -/
structure ColumnInfo where
  ID : Int
deriving DecidableEq

/-- Modelled from the spec: `CachedColumnStats` — column metadata
reference, histogram (possibly empty/unloaded), optional sketch and the
row count covered. The source's `c.Len()` is `histogram.bucketsLen` and
the source's `c.ID` is `histogram.ID`. -/
structure Column where
  Info : ColumnInfo
  histogram : Histogram
  cmSketch : Option CMSketch
  Count : Int
deriving DecidableEq

/-- Modelled from the spec: `CachedTableStats` — identity is the table ID;
fields: version, row count, modify count, and a mapping from column ID to
column statistics (an association list standing for the Go map). -/
structure Table where
  TableID : Int
  Version : Nat
  Count : Int
  ModifyCount : Int
  Pseudo : Bool
  Columns : List (Int × Column)
deriving DecidableEq

/-- Go map lookup on the column map of a table. -/
def lookupCol : List (Int × Column) → Int → Option Column
  | [], _ => none
  | (k, c) :: rest, key => if k = key then some c else lookupCol rest key

/-- Go map insertion (overwrite) on the column map of a table. -/
def insertCol (cols : List (Int × Column)) (key : Int) (c : Column) :
    List (Int × Column) :=
  (key, c) :: cols.filter (fun p => p.1 ≠ key)

/-- Modelled from the spec: schema-change notification (`util.Event`),
opaque to the coordinator. -/
structure Event where
  id : Nat
deriving DecidableEq

/-- Modelled from the spec: `AnalyzeOutcome` — table ID, index/column
flag, row count and the list of (histogram, sketch) pairs produced by a
completed analyze job. The real type lives outside the excerpt. -/
structure AnalyzeResult where
  TableID : Int
  Count : Int
  IsIndex : Int
  Hist : List Histogram
  Cms : List (Option CMSketch)
deriving DecidableEq

/-- Modelled from the spec: a load-stats-meta notification read from
`loadMetaCh`. -/
structure LoadMeta where
  TableID : Int
deriving DecidableEq

/-- Modelled from the spec: a query-feedback record. -/
structure QueryFeedback where
  id : Nat
deriving DecidableEq

/-- Modelled from the spec: per-table (row-count delta, modify-count
delta) accumulator entry. -/
structure TableDelta where
  delta : Int
  count : Int
deriving DecidableEq

/-- Modelled from the spec: per-table estimated-vs-actual error-rate
accumulator entry. -/
structure ErrorRateDelta where
  sum : Int
deriving DecidableEq

/-- The `tableDeltaMap` of the source, as an association list. -/
abbrev TableDeltaMap := List (Int × TableDelta)

/-- The `errorRateDeltaMap` of the source, as an association list. -/
abbrev ErrorRateDeltaMap := List (Int × ErrorRateDelta)

/-- Modelled from the spec: a per-session statistics collector holding a
delta map and an error-rate map. -/
structure SessionStatsCollector where
  mapper : TableDeltaMap
  rateMap : ErrorRateDeltaMap
deriving DecidableEq

/-- The `statsCache` type of the source: a map from table ID to cached
table statistics, modelled as a function. -/
abbrev StatsCache := Int → Option Table

/-- Catalog metadata for a table, as resolved by `is.TableByID(...).Meta()`. -/
structure TableInfo where
  ID : Int
deriving DecidableEq

/-- The `Handle` of the source: watermarks, snapshot cache, inbound
queues and accumulators. The session context is an external collaborator
and is not modelled. -/
@[ext]
structure Handle where
  LastVersion : Nat
  PrevLastVersion : Nat
  statsCache : StatsCache
  ddlEventCh : List Event
  analyzeResultCh : List AnalyzeResult
  listHead : SessionStatsCollector
  globalMap : TableDeltaMap
  rateMap : ErrorRateDeltaMap
  feedback : List QueryFeedback
  Lease : Nat
  loadMetaCh : List LoadMeta

/-- `NewHandle` of the source: empty cache, zero watermarks, empty queues
and accumulators. -/
def NewHandle (lease : Nat) : Handle where
  LastVersion := 0
  PrevLastVersion := 0
  statsCache := fun _ => none
  ddlEventCh := []
  analyzeResultCh := []
  listHead := { mapper := [], rateMap := [] }
  globalMap := []
  rateMap := []
  feedback := []
  Lease := lease
  loadMetaCh := []

/-- `Clear` of the source: stores an empty cache, zeroes both watermarks,
drains `ddlEventCh` and `analyzeResultCh`, and resets `listHead`,
`globalMap` and `rateMap`. It does not touch `loadMetaCh`, `feedback` or
`Lease` (mirroring the Go method, which also leaves them alone). -/
def Clear (h : Handle) : Handle :=
  { h with
    statsCache := fun _ => none
    LastVersion := 0
    PrevLastVersion := 0
    ddlEventCh := []
    analyzeResultCh := []
    listHead := { mapper := [], rateMap := [] }
    globalMap := []
    rateMap := [] }

/-- One row of `mysql.stats_meta` as read by `Update`:
`(version, table_id, modify_count, count)`. -/
structure MetaRow where
  version : Nat
  tableID : Int
  modifyCount : Int
  count : Int
deriving DecidableEq

/-- Insertion step of the ascending-by-version sort. -/
def insertByVersion (r : MetaRow) : List MetaRow → List MetaRow
  | [] => [r]
  | s :: rest =>
    if r.version ≤ s.version then r :: s :: rest else s :: insertByVersion r rest

/-- Sort meta rows by version, ascending (the `order by version` of the
SQL statement issued by `Update`). -/
def sortByVersion : List MetaRow → List MetaRow
  | [] => []
  | r :: rest => insertByVersion r (sortByVersion rest)

/-- Semantics of the SQL statement issued by `Update`:
`SELECT version, table_id, modify_count, count from mysql.stats_meta
where version > floor order by version`, evaluated against the currently
visible rows of the `mysql.stats_meta` table. -/
def selectStatsMeta (store : List MetaRow) (floor : Nat) : List MetaRow :=
  sortByVersion (store.filter (fun r => floor < r.version))

/-- `copyFromOldCache` of the source: build a fresh cache holding exactly
the entries of the old one. -/
def copyFromOldCache (oldCache : StatsCache) : StatsCache :=
  fun k => oldCache k

/-- `UpdateTableStats` of the source: copy the current cache, apply all
inserts/overwrites in order, then apply all deletions, and store the new
cache (copy on write: the old snapshot value is never modified). -/
def UpdateTableStats (h : Handle) (tables : List Table) (deletedIDs : List Int) :
    Handle :=
  let newCache := copyFromOldCache h.statsCache
  let newCache :=
    tables.foldl (fun c tbl => fun k => if k = tbl.TableID then some tbl else c k)
      newCache
  let newCache :=
    deletedIDs.foldl (fun c id => fun k => if k = id then none else c k) newCache
  { h with statsCache := newCache }

/-- Accumulator threaded through the row loop of `Update`. -/
structure UpdAcc where
  lastVersion : Nat
  tables : List Table
  deletedTableIDs : List Int

/-- The row loop of `Update`: for each meta row, advance `LastVersion`,
resolve the table via the catalog (`is`), reconstruct its statistics from
storage (`tsfs`, standing for `tableStatsFromStorage`); an unresolved
table or a nil reconstruction marks the table for deletion, a
reconstruction error skips the table, and a successful reconstruction is
stamped with the row's version/count/modifyCount and queued for insertion. -/
def updateRows (is : Int → Option TableInfo)
    (tsfs : TableInfo → Except Unit (Option Table)) :
    List MetaRow → UpdAcc → UpdAcc
  | [], acc => acc
  | row :: rest, acc =>
    let acc1 : UpdAcc := { acc with lastVersion := row.version }
    match is row.tableID with
    | none =>
        updateRows is tsfs rest
          { acc1 with deletedTableIDs := acc1.deletedTableIDs ++ [row.tableID] }
    | some info =>
        match tsfs info with
        | .error _ => updateRows is tsfs rest acc1
        | .ok none =>
            updateRows is tsfs rest
              { acc1 with deletedTableIDs := acc1.deletedTableIDs ++ [row.tableID] }
        | .ok (some tbl) =>
            let tbl1 : Table :=
              { tbl with
                Version := row.version
                Count := row.count
                ModifyCount := row.modifyCount }
            updateRows is tsfs rest { acc1 with tables := acc1.tables ++ [tbl1] }

/-- `Update` of the source. `store` is the outcome of the restricted SQL
execution: on error the method returns the error at once with the handle
untouched; on success it is the list of rows currently visible in
`mysql.stats_meta`, from which the embedded query selects those with
version strictly above `PrevLastVersion`, ordered by version ascending.
Then `PrevLastVersion` is assigned the old `LastVersion`, the row loop
runs, and the cache is replaced through one `UpdateTableStats` call.
The returned flag is `some ()` exactly when an error is returned. -/
def Update (is : Int → Option TableInfo)
    (tsfs : TableInfo → Except Unit (Option Table))
    (store : Except Unit (List MetaRow)) (h : Handle) :
    Handle × Option Unit :=
  match store with
  | .error _ => (h, some ())
  | .ok visible =>
    let rows := selectStatsMeta visible h.PrevLastVersion
    let h1 := { h with PrevLastVersion := h.LastVersion }
    let acc := updateRows is tsfs rows ⟨h1.LastVersion, [], []⟩
    let h2 := { h1 with LastVersion := acc.lastVersion }
    (UpdateTableStats h2 acc.tables acc.deletedTableIDs, none)

/-- Modelled from the spec: `PseudoTable` (defined in `statistics/table.go`,
outside the excerpt) synthesizes a pseudo statistics object from catalog
metadata alone — keyed by the table's ID, marked pseudo, with a heuristic
row count and no histograms. -/
def pseudoRowCount : Int := 10000

/-- Modelled from the spec: the pseudo statistics object synthesized on a
cache miss. -/
def PseudoTable (info : TableInfo) : Table where
  TableID := info.ID
  Version := 0
  Count := pseudoRowCount
  ModifyCount := 0
  Pseudo := true
  Columns := []

/-- `GetTableStats` of the source: look the table up in the current
snapshot; on a hit return the cached object unchanged; on a miss
synthesize a pseudo object, install it via `UpdateTableStats` and return
it. -/
def GetTableStats (tblInfo : TableInfo) (h : Handle) : Table × Handle :=
  match h.statsCache tblInfo.ID with
  | some tbl => (tbl, h)
  | none =>
    let tbl := PseudoTable tblInfo
    (tbl, UpdateTableStats h [tbl] [])

/-- Modelled from the spec: a pending entry of the process-wide
outstanding-request registry `histogramNeededColumns` (defined outside the
excerpt): a (table ID, column ID) pair some query needed but found
unloaded. -/
structure NeededCol where
  tableID : Int
  columnID : Int
deriving DecidableEq

/-- Modelled from the spec: `histogramNeededColumns.delete` removes the
given pair from the registry. -/
def neededDelete (registry : List NeededCol) (col : NeededCol) : List NeededCol :=
  registry.filter (fun x => x ≠ col)

/-- The loop body of `LoadNeededHistograms`, iterating over the snapshot
`cols` of the registry taken at entry (`histogramNeededColumns.allCols()`),
threading the cache and the live registry. `histS` and `cmsS` stand for
`histogramFromStorage` and `cmSketchFromStorage` (external loaders keyed
by table ID and column/histogram ID):
a table missing from the cache is skipped; a column missing from the
table's column map, or one whose histogram already has buckets, is
deleted from the registry without any load; otherwise the histogram and
then the sketch are loaded, a storage error is returned at once with the
state as it stands, and on success the rebuilt column is installed in a
copy of the table, published via `UpdateTableStats`, and the registry
entry is deleted. -/
def loadNeededLoop (histS : Int → Int → Except Unit Histogram)
    (cmsS : Int → Int → Except Unit (Option CMSketch)) :
    List NeededCol → StatsCache → List NeededCol →
    (StatsCache × List NeededCol) × Option Unit
  | [], cache, registry => ((cache, registry), none)
  | col :: rest, cache, registry =>
    match cache col.tableID with
    | none => loadNeededLoop histS cmsS rest cache registry
    | some tbl =>
      match lookupCol tbl.Columns col.columnID with
      | none => loadNeededLoop histS cmsS rest cache (neededDelete registry col)
      | some c =>
        if 0 < c.histogram.bucketsLen then
          loadNeededLoop histS cmsS rest cache (neededDelete registry col)
        else
          match histS col.tableID c.histogram.ID with
          | .error e => ((cache, registry), some e)
          | .ok hg =>
            match cmsS col.tableID col.columnID with
            | .error e => ((cache, registry), some e)
            | .ok cms =>
              let c1 : Column :=
                { Info := c.Info
                  histogram := hg
                  cmSketch := cms
                  Count := hg.totalRowCount }
              let tbl1 : Table :=
                { tbl with Columns := insertCol tbl.Columns c.histogram.ID c1 }
              let cache1 : StatsCache :=
                fun k => if k = tbl1.TableID then some tbl1 else cache k
              loadNeededLoop histS cmsS rest cache1 (neededDelete registry col)

/-- `LoadNeededHistograms` of the source, acting on the cache and registry:
it snapshots the registry and runs the loop. The result pairs the final
(cache, registry) with `some e` when a storage load failed. -/
def LoadNeededHistograms (histS : Int → Int → Except Unit Histogram)
    (cmsS : Int → Int → Except Unit (Option CMSketch))
    (cache : StatsCache) (registry : List NeededCol) :
    (StatsCache × List NeededCol) × Option Unit :=
  loadNeededLoop histS cmsS registry cache registry

/-- The `ddlEventCh` drain loop of `FlushStats`: every queued event is
consumed; `HandleDDLEvent` (external) is invoked on it and a failure is
only logged — both branches continue with the rest of the queue. -/
def drainDDL (handleDDLEvent : Event → Except Unit Unit) :
    List Event → List Event
  | [] => []
  | e :: rest =>
    match handleDDLEvent e with
    | .ok _ => drainDDL handleDDLEvent rest
    | .error _ => drainDDL handleDDLEvent rest

/-- The inner loop of the analyze drain: `SaveStatsToStorage` (external)
is called once per histogram of the outcome, paired with the sketch of
the same index; every call's outcome is recorded (a failure is only
logged) and the iteration always proceeds to the next pair. -/
def saveHistsAux
    (save : Int → Int → Int → Histogram → Option CMSketch → Except Unit Unit)
    (t : AnalyzeResult) : Nat → List Histogram → List (Except Unit Unit)
  | _, [] => []
  | i, hg :: rest =>
    save t.TableID t.Count t.IsIndex hg (t.Cms.getD i none) ::
      saveHistsAux save t (i + 1) rest

/-- Outcomes of the per-histogram save calls for one analyze result. -/
def saveHists
    (save : Int → Int → Int → Histogram → Option CMSketch → Except Unit Unit)
    (t : AnalyzeResult) : List (Except Unit Unit) :=
  saveHistsAux save t 0 t.Hist

/-- The `analyzeResultCh` drain loop of `FlushStats`: every queued result
is consumed, its histograms are saved pair by pair (failures only
logged), and the drain always continues. -/
def drainAnalyze
    (save : Int → Int → Int → Histogram → Option CMSketch → Except Unit Unit) :
    List AnalyzeResult → List AnalyzeResult
  | [] => []
  | t :: rest =>
    let _outcomes := saveHists save t
    drainAnalyze save rest

/-- `FlushStats` of the source: drain `ddlEventCh`, dump the delta map
(external, failure logged), drain `analyzeResultCh` saving each histogram
pair, dump feedback (external, failure logged). The two dump calls touch
no queue and are not modelled beyond their log-and-continue behaviour;
`loadMetaCh` is not read anywhere in the method. -/
def FlushStats (handleDDLEvent : Event → Except Unit Unit)
    (save : Int → Int → Int → Histogram → Option CMSketch → Except Unit Unit)
    (h : Handle) : Handle :=
  { h with
    ddlEventCh := drainDDL handleDDLEvent h.ddlEventCh
    analyzeResultCh := drainAnalyze save h.analyzeResultCh }

/-- Membership is preserved by the insertion step of the sort. -/
theorem mem_insertByVersion (r a : MetaRow) (l : List MetaRow) :
    a ∈ insertByVersion r l ↔ a = r ∨ a ∈ l := by
  induction l with
  | nil => simp [insertByVersion]
  | cons s rest ih =>
    by_cases h : r.version ≤ s.version
    · simp [insertByVersion, h]
    · simp only [insertByVersion, if_neg h, List.mem_cons, ih]
      tauto

/-- Inserting into an ascending list keeps it ascending. -/
theorem pairwise_insertByVersion (r : MetaRow) (l : List MetaRow)
    (hl : l.Pairwise (fun a b => a.version ≤ b.version)) :
    (insertByVersion r l).Pairwise (fun a b => a.version ≤ b.version) := by
  induction l with
  | nil => simp [insertByVersion]
  | cons s rest ih =>
    rw [List.pairwise_cons] at hl
    by_cases h : r.version ≤ s.version
    · rw [insertByVersion, if_pos h]
      refine List.Pairwise.cons ?_ (List.Pairwise.cons hl.1 hl.2)
      intro x hx
      rcases List.mem_cons.mp hx with rfl | hx
      · exact h
      · exact le_trans h (hl.1 x hx)
    · rw [insertByVersion, if_neg h]
      refine List.Pairwise.cons ?_ (ih hl.2)
      intro x hx
      rcases (mem_insertByVersion r x rest).mp hx with rfl | hx
      · exact le_of_not_le h
      · exact hl.1 x hx

/-- The sort preserves membership. -/
theorem mem_sortByVersion (a : MetaRow) (l : List MetaRow) :
    a ∈ sortByVersion l ↔ a ∈ l := by
  induction l with
  | nil => simp [sortByVersion]
  | cons r rest ih => simp [sortByVersion, mem_insertByVersion, ih]

/-- The sort produces an ascending list. -/
theorem pairwise_sortByVersion (l : List MetaRow) :
    (sortByVersion l).Pairwise (fun a b => a.version ≤ b.version) := by
  induction l with
  | nil => simp [sortByVersion]
  | cons r rest ih => exact pairwise_insertByVersion r _ ih

/-- The sort returns the empty list only on the empty list. -/
theorem sortByVersion_eq_nil (l : List MetaRow) :
    sortByVersion l = [] ↔ l = [] := by
  constructor
  · intro hnil
    rcases l with _ | ⟨r, rest⟩
    · rfl
    · exfalso
      have hr : r ∈ sortByVersion (r :: rest) :=
        (mem_sortByVersion r (r :: rest)).mpr (by simp)
      rw [hnil] at hr
      simp at hr
  · intro h
    subst h
    rfl

/-- A row is returned by the embedded meta query exactly when it is
visible in storage and its version is strictly above the floor. -/
theorem mem_selectStatsMeta (r : MetaRow) (store : List MetaRow) (floor : Nat) :
    r ∈ selectStatsMeta store floor ↔ r ∈ store ∧ floor < r.version := by
  simp [selectStatsMeta, mem_sortByVersion, List.mem_filter]

/-- The embedded meta query is empty exactly when no visible row is above
the floor. -/
theorem selectStatsMeta_eq_nil (store : List MetaRow) (floor : Nat) :
    selectStatsMeta store floor = [] ↔ ∀ r ∈ store, r.version ≤ floor := by
  rw [List.eq_nil_iff_forall_not_mem]
  refine forall_congr' fun r => ?_
  rw [mem_selectStatsMeta]
  constructor
  · intro h hr
    by_contra hlt
    exact h ⟨hr, Nat.lt_of_not_ge hlt⟩
  · rintro h ⟨hr, hlt⟩
    exact absurd hlt (Nat.not_lt.mpr (h hr))

/-- The last element of a meta-row list, if any. -/
def lastRow? : List MetaRow → Option MetaRow
  | [] => none
  | [r] => some r
  | _ :: r :: rest => lastRow? (r :: rest)

/-- A nonempty list has a last element. -/
theorem lastRow?_cons_some (s : MetaRow) (rest : List MetaRow) :
    ∃ u, lastRow? (s :: rest) = some u := by
  induction rest generalizing s with
  | nil => exact ⟨s, rfl⟩
  | cons t rest' ih => simpa [lastRow?] using ih t

/-- After the row loop, `lastVersion` is the version of the last row
processed, or the starting value when the batch is empty. -/
theorem updateRows_lastVersion (is : Int → Option TableInfo)
    (tsfs : TableInfo → Except Unit (Option Table))
    (rows : List MetaRow) (acc : UpdAcc) :
    (updateRows is tsfs rows acc).lastVersion =
      match lastRow? rows with
      | none => acc.lastVersion
      | some r => r.version := by
  induction rows generalizing acc with
  | nil => rfl
  | cons r rest ih =>
    have hgoal : (updateRows is tsfs (r :: rest) acc).lastVersion =
        match lastRow? rest with
        | none => r.version
        | some u => u.version := by
      rw [updateRows]
      rcases h1 : is r.tableID with _ | info
      · simp only [ih]
      · rcases h2 : tsfs info with e | tbl
        · simp only [h2, ih]
        · rcases tbl with _ | tbl
          · simp only [h2, ih]
          · simp only [h2, ih]
    rcases rest with _ | ⟨s, rest'⟩
    · simpa [lastRow?] using hgoal
    · simp only [lastRow?]
      rcases lastRow?_cons_some s rest' with ⟨u, hu⟩
      simp only [hu] at hgoal ⊢
      exact hgoal

/-- The last table of the insert list carrying the given table ID, if
any (the "last write wins" semantics of the Go map insert loop). -/
def lastTbl : List Table → Int → Option Table
  | [], _ => none
  | t :: rest, k =>
    match lastTbl rest k with
    | some u => some u
    | none => if t.TableID = k then some t else none

/-- Pointwise reading of the insert loop of `UpdateTableStats`. -/
theorem foldl_insert_lookup (tables : List Table) (c : StatsCache) (k : Int) :
    (tables.foldl
        (fun c tbl => fun k => if k = tbl.TableID then some tbl else c k) c) k =
      match lastTbl tables k with
      | some u => some u
      | none => c k := by
  induction tables generalizing c with
  | nil => rfl
  | cons t rest ih =>
    rw [List.foldl_cons, ih]
    rcases h : lastTbl rest k with _ | u
    · simp only [lastTbl, h]
      by_cases hk : k = t.TableID
      · rw [if_pos hk, if_pos hk.symm]
      · rw [if_neg hk, if_neg (fun hh => hk hh.symm)]
    · simp only [lastTbl, h]

/-- Pointwise reading of the delete loop of `UpdateTableStats`. -/
theorem foldl_delete_lookup (ids : List Int) (c : StatsCache) (k : Int) :
    (ids.foldl (fun c id => fun k => if k = id then none else c k) c) k =
      if k ∈ ids then none else c k := by
  induction ids generalizing c with
  | nil => simp
  | cons i rest ih =>
    rw [List.foldl_cons, ih]
    by_cases hk : k ∈ rest
    · simp [hk]
    · by_cases hki : k = i
      · simp [hk, hki]
      · simp [hk, hki]

/-- Pointwise characterization of `UpdateTableStats`: deletions override
inserts, inserts override the cloned old cache, last insert wins. -/
theorem UpdateTableStats_lookup (h : Handle) (tables : List Table)
    (deletedIDs : List Int) (k : Int) :
    (UpdateTableStats h tables deletedIDs).statsCache k =
      if k ∈ deletedIDs then none
      else
        match lastTbl tables k with
        | some u => some u
        | none => h.statsCache k := by
  simp only [UpdateTableStats]
  rw [foldl_delete_lookup]
  by_cases hk : k ∈ deletedIDs
  · simp [hk]
  · rw [if_neg hk, if_neg hk, foldl_insert_lookup]
    rfl

/-- `UpdateTableStats` changes no field but the snapshot cache. -/
theorem UpdateTableStats_fields (h : Handle) (tables : List Table)
    (deletedIDs : List Int) :
    (UpdateTableStats h tables deletedIDs).LastVersion = h.LastVersion ∧
    (UpdateTableStats h tables deletedIDs).PrevLastVersion = h.PrevLastVersion ∧
    (UpdateTableStats h tables deletedIDs).ddlEventCh = h.ddlEventCh ∧
    (UpdateTableStats h tables deletedIDs).analyzeResultCh = h.analyzeResultCh ∧
    (UpdateTableStats h tables deletedIDs).loadMetaCh = h.loadMetaCh ∧
    (UpdateTableStats h tables deletedIDs).feedback = h.feedback := by
  simp [UpdateTableStats]

/-- The DDL drain always empties the queue, whatever the per-event
outcomes are. -/
theorem drainDDL_eq_nil (f : Event → Except Unit Unit) (l : List Event) :
    drainDDL f l = [] := by
  induction l with
  | nil => rfl
  | cons e rest ih =>
    cases hfe : f e <;> simp [drainDDL, hfe, ih]

/-- The analyze drain always empties the queue, whatever the per-pair
save outcomes are. -/
theorem drainAnalyze_eq_nil
    (save : Int → Int → Int → Histogram → Option CMSketch → Except Unit Unit)
    (l : List AnalyzeResult) :
    drainAnalyze save l = [] := by
  induction l with
  | nil => rfl
  | cons t rest ih => simp [drainAnalyze, ih]

/-- Every histogram of an analyze outcome gets its own save attempt,
regardless of earlier failures. -/
theorem saveHistsAux_length
    (save : Int → Int → Int → Histogram → Option CMSketch → Except Unit Unit)
    (t : AnalyzeResult) (i : Nat) (hists : List Histogram) :
    (saveHistsAux save t i hists).length = hists.length := by
  induction hists generalizing i with
  | nil => rfl
  | cons hg rest ih => simp [saveHistsAux, ih]

/-- C10: if the initial storage query of a refresh cycle fails, `Update`
returns the error with the handle state exactly as it was before the
call — both watermarks unchanged and the snapshot cache not replaced
(the `PrevLastVersion` assignment and the cache replacement both occur
after the error check in the source). -/
theorem C10_update_query_error_atomic (is : Int → Option TableInfo)
    (tsfs : TableInfo → Except Unit (Option Table)) (e : Unit) (h : Handle) :
    Update is tsfs (.error e) h = (h, some ()) := rfl

/-- C5: `UpdateTableStats` produces a snapshot equal to a clone of the
prior snapshot with all inserts/overwrites applied first (last write
wins) and all deletions applied afterwards, so a table ID appearing in
both the updates and the removals is absent from the new snapshot; the
clone agrees pointwise with the prior snapshot, which is never modified
(the new map is installed by the single final store). -/
theorem C5_replace_semantics (h : Handle) (tables : List Table)
    (deletedIDs : List Int) :
    (∀ k, (UpdateTableStats h tables deletedIDs).statsCache k =
        if k ∈ deletedIDs then none
        else
          match lastTbl tables k with
          | some u => some u
          | none => copyFromOldCache h.statsCache k) ∧
    (∀ k, k ∈ tables.map Table.TableID → k ∈ deletedIDs →
        (UpdateTableStats h tables deletedIDs).statsCache k = none) ∧
    (∀ k, copyFromOldCache h.statsCache k = h.statsCache k) := by
  refine ⟨fun k => UpdateTableStats_lookup h tables deletedIDs k, ?_, fun k => rfl⟩
  intro k _ hkd
  rw [UpdateTableStats_lookup, if_pos hkd]

/-- A concrete table used by witnesses. -/
def wTable : Table where
  TableID := 3
  Version := 1
  Count := 5
  ModifyCount := 0
  Pseudo := false
  Columns := []

/-- Witness for C5: table 3 is both inserted and removed, and is absent
from the resulting snapshot. -/
theorem C5_replace_semantics_w :
    ((3 : Int) ∈ [wTable].map Table.TableID ∧ (3 : Int) ∈ [(3 : Int)]) ∧
    (UpdateTableStats (NewHandle 0) [wTable] [3]).statsCache 3 = none :=
  ⟨⟨by decide, by decide⟩,
    (C5_replace_semantics (NewHandle 0) [wTable] [3]).2.1 3 (by decide) (by decide)⟩

/-- A handle with a pending load request and accumulated feedback, used
to exhibit what `Clear` and `FlushStats` leave behind. -/
def hPending : Handle :=
  { NewHandle 0 with
    LastVersion := 7
    PrevLastVersion := 3
    ddlEventCh := [⟨0⟩]
    analyzeResultCh := [⟨1, 10, 0, [⟨1, 1, 10⟩], [none]⟩]
    loadMetaCh := [⟨1⟩]
    feedback := [⟨0⟩] }

/-- C9 counterexample: `Clear` leaves the load-request queue and the
accumulated query feedback untouched, so a handle with a pending load
request and a feedback record is not restored to an entirely empty
state. -/
theorem C9_clear_cex :
    (Clear hPending).loadMetaCh ≠ [] ∧ (Clear hPending).feedback ≠ [] := by
  decide

/-- C9 amended: `Clear` empties the snapshot cache, zeroes both
watermarks, drains the schema-change and analyze queues and resets the
per-table delta and error-rate accumulators (including the session
collector head), but leaves the load-request queue and the accumulated
query feedback untouched. -/
theorem C9_clear_amended (h : Handle) :
    (∀ k, (Clear h).statsCache k = none) ∧
    (Clear h).LastVersion = 0 ∧ (Clear h).PrevLastVersion = 0 ∧
    (Clear h).ddlEventCh = [] ∧ (Clear h).analyzeResultCh = [] ∧
    (Clear h).listHead.mapper = [] ∧ (Clear h).listHead.rateMap = [] ∧
    (Clear h).globalMap = [] ∧ (Clear h).rateMap = [] ∧
    (Clear h).loadMetaCh = h.loadMetaCh ∧ (Clear h).feedback = h.feedback := by
  simp [Clear]

/-- A DDL handler that always succeeds, for the C7 counterexample. -/
def okDDL : Event → Except Unit Unit := fun _ => .ok ()

/-- A histogram save routine that always succeeds, for the C7
counterexample. -/
def okSave : Int → Int → Int → Histogram → Option CMSketch → Except Unit Unit :=
  fun _ _ _ _ _ => .ok ()

/-- C7 counterexample: with every persistence call succeeding (nothing
failed), `FlushStats` still leaves the load-request queue non-empty — it
drains only the schema-change and analyze queues, never the load-request
queue. -/
theorem C7_flush_cex :
    (FlushStats okDDL okSave hPending).loadMetaCh.length = 1 ∧
    (FlushStats okDDL okSave hPending).ddlEventCh = [] ∧
    (FlushStats okDDL okSave hPending).analyzeResultCh = [] := by
  decide

/-- C7 amended: after `FlushStats`, the schema-change and analyze queues
are empty whatever the per-item persistence outcomes were (failed items
are consumed, logged and skipped, never re-queued, and never abort the
drain); the load-request queue is not drained by `FlushStats` and keeps
its prior contents; and within one analyze outcome every histogram pair
gets its own save attempt regardless of earlier failures. -/
theorem C7_flush_amended (fddl : Event → Except Unit Unit)
    (fsave : Int → Int → Int → Histogram → Option CMSketch → Except Unit Unit)
    (h : Handle) :
    (FlushStats fddl fsave h).ddlEventCh = [] ∧
    (FlushStats fddl fsave h).analyzeResultCh = [] ∧
    (FlushStats fddl fsave h).loadMetaCh = h.loadMetaCh ∧
    (∀ t : AnalyzeResult, (saveHists fsave t).length = t.Hist.length) := by
  refine ⟨?_, ?_, rfl, fun t => saveHistsAux_length fsave t 0 t.Hist⟩
  · simp [FlushStats, drainDDL_eq_nil]
  · simp [FlushStats, drainAnalyze_eq_nil]

/-- C1: a refresh cycle whose meta query returns exactly the row
(version=5, tableID=1, modifyCount=3, count=100), whose catalog resolves
table 1 and whose statistics reconstruction succeeds with a non-nil
object, ends with the cache mapping table 1 to that object stamped with
Version=5, Count=100, ModifyCount=3, the previous watermark holding the
pre-cycle current watermark, and the current watermark holding 5. -/
theorem C1_refresh_single_row (is : Int → Option TableInfo)
    (tsfs : TableInfo → Except Unit (Option Table))
    (h : Handle) (info : TableInfo) (tbl0 : Table)
    (hfloor : h.PrevLastVersion < 5)
    (hcat : is 1 = some info)
    (hrec : tsfs info = .ok (some tbl0))
    (hid : tbl0.TableID = 1) :
    (Update is tsfs (.ok [⟨5, 1, 3, 100⟩]) h).2 = none ∧
    (Update is tsfs (.ok [⟨5, 1, 3, 100⟩]) h).1.statsCache 1 =
      some { tbl0 with Version := 5, Count := 100, ModifyCount := 3 } ∧
    (Update is tsfs (.ok [⟨5, 1, 3, 100⟩]) h).1.PrevLastVersion = h.LastVersion ∧
    (Update is tsfs (.ok [⟨5, 1, 3, 100⟩]) h).1.LastVersion = 5 := by
  have hsel : selectStatsMeta [⟨5, 1, 3, 100⟩] h.PrevLastVersion =
      [⟨5, 1, 3, 100⟩] := by
    simp [selectStatsMeta, sortByVersion, insertByVersion, List.filter_cons, hfloor]
  have hrows : updateRows is tsfs [⟨5, 1, 3, 100⟩] ⟨h.LastVersion, [], []⟩ =
      ⟨5, [{ tbl0 with Version := 5, Count := 100, ModifyCount := 3 }], []⟩ := by
    simp [updateRows, hcat, hrec]
  have hupd : Update is tsfs (.ok [⟨5, 1, 3, 100⟩]) h =
      (UpdateTableStats
          { h with PrevLastVersion := h.LastVersion, LastVersion := 5 }
          [{ tbl0 with Version := 5, Count := 100, ModifyCount := 3 }] [], none) := by
    simp only [Update, hsel]
    rw [show (⟨({ h with PrevLastVersion := h.LastVersion } : Handle).LastVersion,
        [], []⟩ : UpdAcc) = ⟨h.LastVersion, [], []⟩ from rfl, hrows]
  rw [hupd]
  refine ⟨rfl, ?_, ?_, ?_⟩
  · rw [UpdateTableStats_lookup]
    simp [lastTbl, hid]
  · simp [UpdateTableStats]
  · simp [UpdateTableStats]

/-- A catalog resolving only table 1, used by witnesses. -/
def isCat1 : Int → Option TableInfo := fun k => if k = 1 then some ⟨1⟩ else none

/-- A concrete statistics object for table 1, used by witnesses. -/
def tblOne : Table where
  TableID := 1
  Version := 0
  Count := 0
  ModifyCount := 0
  Pseudo := false
  Columns := []

/-- A reconstruction routine that always yields `tblOne`, used by
witnesses. -/
def tsfsOne : TableInfo → Except Unit (Option Table) := fun _ => .ok (some tblOne)

/-- Witness for C1 at a concrete handle, catalog and reconstruction. -/
theorem C1_refresh_single_row_w :
    (hPending.PrevLastVersion < 5 ∧ isCat1 1 = some ⟨1⟩ ∧
      tsfsOne ⟨1⟩ = .ok (some tblOne) ∧ tblOne.TableID = 1) ∧
    (Update isCat1 tsfsOne (.ok [⟨5, 1, 3, 100⟩]) hPending).2 = none ∧
    (Update isCat1 tsfsOne (.ok [⟨5, 1, 3, 100⟩]) hPending).1.statsCache 1 =
      some { tblOne with Version := 5, Count := 100, ModifyCount := 3 } ∧
    (Update isCat1 tsfsOne (.ok [⟨5, 1, 3, 100⟩]) hPending).1.PrevLastVersion =
      hPending.LastVersion ∧
    (Update isCat1 tsfsOne (.ok [⟨5, 1, 3, 100⟩]) hPending).1.LastVersion = 5 :=
  ⟨⟨by decide, rfl, rfl, rfl⟩,
    C1_refresh_single_row isCat1 tsfsOne hPending ⟨1⟩ tblOne (by decide) rfl rfl rfl⟩

/-- C4: when the meta query finds nothing new (the reachable-state
invariant `previous ≤ current` holds and no visible row lies above the
previous watermark), a second `Update` is a complete no-op — it returns
the first call's state unchanged, watermarks included — and the first
call already left the cache contents pointwise unchanged. -/
theorem C4_refresh_idempotent (is : Int → Option TableInfo)
    (tsfs : TableInfo → Except Unit (Option Table))
    (store : List MetaRow) (h : Handle)
    (hinv : h.PrevLastVersion ≤ h.LastVersion)
    (hnone : selectStatsMeta store h.PrevLastVersion = []) :
    Update is tsfs (.ok store) ((Update is tsfs (.ok store) h).1) =
      ((Update is tsfs (.ok store) h).1, none) ∧
    (∀ k, (Update is tsfs (.ok store) h).1.statsCache k = h.statsCache k) := by
  have hnone2 : selectStatsMeta store h.LastVersion = [] := by
    rw [selectStatsMeta_eq_nil] at hnone ⊢
    exact fun r hr => le_trans (hnone r hr) hinv
  have h1eq : (Update is tsfs (.ok store) h).1 =
      { h with PrevLastVersion := h.LastVersion } := by
    simp only [Update]
    rw [hnone]
    rfl
  constructor
  · rw [h1eq]
    simp only [Update]
    rw [hnone2]
    rfl
  · intro k
    rw [h1eq]

/-- Witness for C4 at a concrete handle and an empty storage table. -/
theorem C4_refresh_idempotent_w :
    ((NewHandle 0).PrevLastVersion ≤ (NewHandle 0).LastVersion ∧
      selectStatsMeta [] (NewHandle 0).PrevLastVersion = []) ∧
    Update isCat1 tsfsOne (.ok [])
        ((Update isCat1 tsfsOne (.ok []) (NewHandle 0)).1) =
      ((Update isCat1 tsfsOne (.ok []) (NewHandle 0)).1, none) ∧
    (∀ k, (Update isCat1 tsfsOne (.ok []) (NewHandle 0)).1.statsCache k =
      (NewHandle 0).statsCache k) :=
  ⟨⟨by decide, rfl⟩,
    C4_refresh_idempotent isCat1 tsfsOne [] (NewHandle 0) (by decide) rfl⟩

/-- First cycle of the C2 counterexample: a meta row at version 12
advances the current watermark to 12 while the previous watermark stays
at 0. -/
def hSkew1 : Handle :=
  (Update isCat1 tsfsOne (.ok [⟨12, 1, 0, 0⟩]) (NewHandle 0)).1

/-- Second cycle of the C2 counterexample: storage now returns only a
row at version 10 (above the previous watermark 0). -/
def hSkew2 : Handle :=
  (Update isCat1 tsfsOne (.ok [⟨10, 1, 0, 0⟩]) hSkew1).1

/-- C2 counterexample: the claim quantifies over every possible ordered
batch returned by storage, but when a later batch contains only a row
with a version below the current watermark (version 10 after the
watermark reached 12 — e.g. because the version-12 meta row was deleted
from storage), the current watermark decreases from 12 to 10 and ends
strictly below the previous watermark, so neither monotonicity of the
current watermark nor `previous ≤ current` holds unconditionally. -/
theorem C2_watermarks_cex :
    hSkew1.PrevLastVersion = 0 ∧ hSkew1.LastVersion = 12 ∧
    hSkew2.PrevLastVersion = 12 ∧ hSkew2.LastVersion = 10 ∧
    ¬ hSkew2.PrevLastVersion ≤ hSkew2.LastVersion ∧
    hSkew2.LastVersion < hSkew1.LastVersion := by
  decide

/-- C2 amended: under the storage-retention condition that every
non-empty batch selected above the previous watermark ends at a version
at least the pre-cycle current watermark (true whenever the meta row
that last advanced the watermark is still visible), one `Update` cycle
assigns the prior current watermark to the previous watermark before the
current one advances, both watermarks are nondecreasing, and
`previous ≤ current` holds again at the end of the cycle (so the
invariant is preserved along every sequence of cycles). -/
theorem C2_watermarks_amended (is : Int → Option TableInfo)
    (tsfs : TableInfo → Except Unit (Option Table))
    (store : List MetaRow) (h : Handle)
    (hinv : h.PrevLastVersion ≤ h.LastVersion)
    (hlast : ∀ r, lastRow? (selectStatsMeta store h.PrevLastVersion) = some r →
      h.LastVersion ≤ r.version) :
    (Update is tsfs (.ok store) h).1.PrevLastVersion = h.LastVersion ∧
    h.PrevLastVersion ≤ (Update is tsfs (.ok store) h).1.PrevLastVersion ∧
    h.LastVersion ≤ (Update is tsfs (.ok store) h).1.LastVersion ∧
    (Update is tsfs (.ok store) h).1.PrevLastVersion ≤
      (Update is tsfs (.ok store) h).1.LastVersion := by
  have hprev : (Update is tsfs (.ok store) h).1.PrevLastVersion = h.LastVersion := by
    simp [Update, UpdateTableStats]
  have hcur : h.LastVersion ≤ (Update is tsfs (.ok store) h).1.LastVersion := by
    have hL : (Update is tsfs (.ok store) h).1.LastVersion =
        (updateRows is tsfs (selectStatsMeta store h.PrevLastVersion)
          ⟨h.LastVersion, [], []⟩).lastVersion := by
      simp [Update, UpdateTableStats]
    rw [hL, updateRows_lastVersion]
    rcases hl : lastRow? (selectStatsMeta store h.PrevLastVersion) with _ | r
    · exact le_refl _
    · exact hlast r hl
  exact ⟨hprev, hprev ▸ hinv, hcur, hprev ▸ hcur⟩

/-- Witness for C2 amended at a concrete handle and storage. -/
theorem C2_watermarks_amended_w :
    ((NewHandle 0).PrevLastVersion ≤ (NewHandle 0).LastVersion ∧
      (∀ r, lastRow? (selectStatsMeta [⟨5, 1, 0, 0⟩]
          (NewHandle 0).PrevLastVersion) = some r →
        (NewHandle 0).LastVersion ≤ r.version)) ∧
    (Update isCat1 tsfsOne (.ok [⟨5, 1, 0, 0⟩]) (NewHandle 0)).1.PrevLastVersion =
      (NewHandle 0).LastVersion ∧
    (NewHandle 0).PrevLastVersion ≤
      (Update isCat1 tsfsOne (.ok [⟨5, 1, 0, 0⟩]) (NewHandle 0)).1.PrevLastVersion ∧
    (NewHandle 0).LastVersion ≤
      (Update isCat1 tsfsOne (.ok [⟨5, 1, 0, 0⟩]) (NewHandle 0)).1.LastVersion ∧
    (Update isCat1 tsfsOne (.ok [⟨5, 1, 0, 0⟩]) (NewHandle 0)).1.PrevLastVersion ≤
      (Update isCat1 tsfsOne (.ok [⟨5, 1, 0, 0⟩]) (NewHandle 0)).1.LastVersion :=
  ⟨⟨by decide, fun r _ => Nat.zero_le r.version⟩,
    C2_watermarks_amended isCat1 tsfsOne [⟨5, 1, 0, 0⟩] (NewHandle 0)
      (by decide) (fun r _ => Nat.zero_le r.version)⟩

/-- C3: every refresh cycle selects exactly the visible meta rows with
version strictly greater than the previous watermark (not the current
one), ordered by version ascending; consequently, in the version-skew
scenario — a row for table A at version 10 becoming visible only after a
cycle already advanced the current watermark to 12 via table B — the
next cycle still picks up A's update and installs it in the cache at
version 10. -/
theorem C3_query_floor_and_skew (is : Int → Option TableInfo)
    (tsfs : TableInfo → Except Unit (Option Table))
    (idA idB mA cA mB cB : Int) (infoA infoB : TableInfo) (tblA tblB : Table)
    (hAB : idA ≠ idB)
    (hisA : is idA = some infoA) (hisB : is idB = some infoB)
    (hrecA : tsfs infoA = .ok (some tblA)) (hrecB : tsfs infoB = .ok (some tblB))
    (hidA : tblA.TableID = idA) (hidB : tblB.TableID = idB) :
    (∀ (visible : List MetaRow) (hh : Handle) (r : MetaRow),
        r ∈ selectStatsMeta visible hh.PrevLastVersion ↔
          r ∈ visible ∧ hh.PrevLastVersion < r.version) ∧
    (∀ (visible : List MetaRow) (floor : Nat),
        (selectStatsMeta visible floor).Pairwise
          (fun a b => a.version ≤ b.version)) ∧
    (Update is tsfs (.ok [⟨12, idB, mB, cB⟩]) (NewHandle 0)).1.LastVersion = 12 ∧
    (Update is tsfs (.ok [⟨12, idB, mB, cB⟩]) (NewHandle 0)).1.PrevLastVersion = 0 ∧
    (Update is tsfs (.ok [⟨10, idA, mA, cA⟩, ⟨12, idB, mB, cB⟩])
        (Update is tsfs (.ok [⟨12, idB, mB, cB⟩]) (NewHandle 0)).1).1.statsCache
      idA = some { tblA with Version := 10, Count := cA, ModifyCount := mA } := by
  have hsel1 : selectStatsMeta [⟨12, idB, mB, cB⟩]
      (NewHandle 0).PrevLastVersion = [⟨12, idB, mB, cB⟩] := by
    simp [selectStatsMeta, sortByVersion, insertByVersion, List.filter_cons,
      NewHandle]
  have hrows1 : updateRows is tsfs [⟨12, idB, mB, cB⟩] ⟨0, [], []⟩ =
      ⟨12, [{ tblB with Version := 12, Count := cB, ModifyCount := mB }], []⟩ := by
    simp [updateRows, hisB, hrecB]
  have h1prev : (Update is tsfs (.ok [⟨12, idB, mB, cB⟩])
      (NewHandle 0)).1.PrevLastVersion = 0 := by
    simp [Update, UpdateTableStats, NewHandle]
  have h1last : (Update is tsfs (.ok [⟨12, idB, mB, cB⟩])
      (NewHandle 0)).1.LastVersion = 12 := by
    simp only [Update, hsel1]
    rw [show (⟨({ NewHandle 0 with
          PrevLastVersion := (NewHandle 0 : Handle).LastVersion } :
            Handle).LastVersion, [], []⟩ : UpdAcc) = ⟨0, [], []⟩ from rfl, hrows1]
    simp [UpdateTableStats]
  have main : ∀ hh : Handle, hh.PrevLastVersion = 0 →
      (Update is tsfs (.ok [⟨10, idA, mA, cA⟩, ⟨12, idB, mB, cB⟩]) hh).1.statsCache
        idA = some { tblA with Version := 10, Count := cA, ModifyCount := mA } := by
    intro hh hprev
    have hsel2 : selectStatsMeta [⟨10, idA, mA, cA⟩, ⟨12, idB, mB, cB⟩]
        hh.PrevLastVersion =
        [⟨10, idA, mA, cA⟩, ⟨12, idB, mB, cB⟩] := by
      rw [hprev]
      simp [selectStatsMeta, sortByVersion, insertByVersion, List.filter_cons]
    have hrows2 : updateRows is tsfs
        [⟨10, idA, mA, cA⟩, ⟨12, idB, mB, cB⟩] ⟨hh.LastVersion, [], []⟩ =
        ⟨12, [{ tblA with Version := 10, Count := cA, ModifyCount := mA },
              { tblB with Version := 12, Count := cB, ModifyCount := mB }], []⟩ := by
      simp [updateRows, hisA, hisB, hrecA, hrecB]
    have hupd2 : (Update is tsfs
        (.ok [⟨10, idA, mA, cA⟩, ⟨12, idB, mB, cB⟩]) hh).1 =
        UpdateTableStats
          { hh with PrevLastVersion := hh.LastVersion, LastVersion := 12 }
          [{ tblA with Version := 10, Count := cA, ModifyCount := mA },
           { tblB with Version := 12, Count := cB, ModifyCount := mB }] [] := by
      simp only [Update, hsel2]
      rw [show (⟨({ hh with PrevLastVersion := hh.LastVersion } :
            Handle).LastVersion, [], []⟩ : UpdAcc) =
          ⟨hh.LastVersion, [], []⟩ from rfl, hrows2]
    rw [hupd2, UpdateTableStats_lookup]
    simp [lastTbl, hidA, hidB, Ne.symm hAB]
  exact ⟨fun visible hh r => mem_selectStatsMeta r visible hh.PrevLastVersion,
    fun visible floor => pairwise_sortByVersion _,
    h1last, h1prev, main _ h1prev⟩

/-- A catalog resolving tables 1 and 2, used by the C3 witness. -/
def isCat12 : Int → Option TableInfo := fun k =>
  if k = 1 then some ⟨1⟩ else if k = 2 then some ⟨2⟩ else none

/-- A concrete statistics object for table 2, used by the C3 witness. -/
def tblTwo : Table where
  TableID := 2
  Version := 0
  Count := 0
  ModifyCount := 0
  Pseudo := false
  Columns := []

/-- A reconstruction routine resolving tables 1 and 2 to `tblOne` and
`tblTwo`, used by the C3 witness. -/
def tsfs12 : TableInfo → Except Unit (Option Table) := fun info =>
  if info.ID = 1 then .ok (some tblOne) else .ok (some tblTwo)

/-- Witness for C3 at concrete tables A=1 (version 10) and B=2
(version 12). -/
theorem C3_query_floor_and_skew_w :
    ((1 : Int) ≠ 2 ∧ isCat12 1 = some ⟨1⟩ ∧ isCat12 2 = some ⟨2⟩ ∧
      tsfs12 ⟨1⟩ = .ok (some tblOne) ∧ tsfs12 ⟨2⟩ = .ok (some tblTwo) ∧
      tblOne.TableID = 1 ∧ tblTwo.TableID = 2) ∧
    (Update isCat12 tsfs12 (.ok [⟨12, 2, 6, 60⟩]) (NewHandle 0)).1.LastVersion
      = 12 ∧
    (Update isCat12 tsfs12 (.ok [⟨12, 2, 6, 60⟩])
      (NewHandle 0)).1.PrevLastVersion = 0 ∧
    (Update isCat12 tsfs12 (.ok [⟨10, 1, 4, 40⟩, ⟨12, 2, 6, 60⟩])
        (Update isCat12 tsfs12 (.ok [⟨12, 2, 6, 60⟩]) (NewHandle 0)).1).1.statsCache
      1 = some { tblOne with Version := 10, Count := 40, ModifyCount := 4 } :=
  ⟨⟨by decide, rfl, rfl, rfl, rfl, rfl, rfl⟩,
    (C3_query_floor_and_skew isCat12 tsfs12 1 2 4 40 6 60 ⟨1⟩ ⟨2⟩ tblOne tblTwo
      (by decide) rfl rfl rfl rfl rfl rfl).2.2⟩

/-- C6: on a miss, `GetTableStats` returns the synthesized pseudo object
and installs it under the table's ID (touching no other key); an
immediate second call hits the cache, returns the very same object and
leaves the state untouched (so no duplicate entry is created); on a hit,
`GetTableStats` returns the cached object and does not modify the
handle at all. -/
theorem C6_get_miss_then_hit (info : TableInfo) (h : Handle) :
    (h.statsCache info.ID = none →
      (GetTableStats info h).1 = PseudoTable info ∧
      (GetTableStats info h).2.statsCache info.ID = some (PseudoTable info) ∧
      GetTableStats info (GetTableStats info h).2 =
        ((GetTableStats info h).1, (GetTableStats info h).2) ∧
      (∀ k, k ≠ info.ID →
        (GetTableStats info h).2.statsCache k = h.statsCache k)) ∧
    (∀ tbl, h.statsCache info.ID = some tbl → GetTableStats info h = (tbl, h)) := by
  constructor
  · intro hmiss
    have hfst : GetTableStats info h =
        (PseudoTable info, UpdateTableStats h [PseudoTable info] []) := by
      simp [GetTableStats, hmiss]
    have hcached : (UpdateTableStats h [PseudoTable info] []).statsCache info.ID =
        some (PseudoTable info) := by
      rw [UpdateTableStats_lookup]
      simp [lastTbl, PseudoTable]
    refine ⟨by rw [hfst], by rw [hfst]; exact hcached, ?_, ?_⟩
    · rw [hfst]
      simp [GetTableStats, hcached]
    · intro k hk
      rw [hfst, UpdateTableStats_lookup]
      simp [lastTbl, PseudoTable, Ne.symm hk]
  · intro tbl htbl
    simp [GetTableStats, htbl]

/-- Witness for C6: a fresh handle misses on table 1; the first call
synthesizes and installs the pseudo object and the second call returns
the identical object with the state unchanged. -/
theorem C6_get_miss_then_hit_w :
    (NewHandle 0).statsCache 1 = none ∧
    ((GetTableStats ⟨1⟩ (NewHandle 0)).1 = PseudoTable ⟨1⟩ ∧
      (GetTableStats ⟨1⟩ (NewHandle 0)).2.statsCache 1 =
        some (PseudoTable ⟨1⟩) ∧
      GetTableStats ⟨1⟩ (GetTableStats ⟨1⟩ (NewHandle 0)).2 =
        ((GetTableStats ⟨1⟩ (NewHandle 0)).1,
          (GetTableStats ⟨1⟩ (NewHandle 0)).2) ∧
      (∀ k, k ≠ (1 : Int) →
        (GetTableStats ⟨1⟩ (NewHandle 0)).2.statsCache k =
          (NewHandle 0).statsCache k)) :=
  ⟨rfl, (C6_get_miss_then_hit ⟨1⟩ (NewHandle 0)).1 rfl⟩

/-- A histogram loader that always fails, used by the C8 theorems. -/
def errHist : Int → Int → Except Unit Histogram := fun _ _ => .error ()

/-- A sketch loader that always fails, used by the C8 theorems. -/
def errCms : Int → Int → Except Unit (Option CMSketch) := fun _ _ => .error ()

/-- A cached table with an empty column map, used by the C8
counterexample. -/
def tblNoCol : Table where
  TableID := 1
  Version := 0
  Count := 0
  ModifyCount := 0
  Pseudo := false
  Columns := []

/-- A snapshot cache holding only `tblNoCol` under table ID 1. -/
def cacheNoCol : StatsCache := fun k => if k = 1 then some tblNoCol else none

/-- C8 counterexample: with a pending request for column 7 of table 1,
whose cached entry exists but contains no column 7 at all, the call
succeeds (no load was ever attempted — both loaders always fail, and any
attempted load would have surfaced that error) and the registry entry is
nevertheless removed; so an entry can be removed without its load
succeeding and without the column being found already satisfied
(loaded, with a non-empty histogram) in the cache entry. -/
theorem C8_load_cex :
    (LoadNeededHistograms errHist errCms cacheNoCol [⟨1, 7⟩]).1.2 = [] ∧
    (LoadNeededHistograms errHist errCms cacheNoCol [⟨1, 7⟩]).2 = none ∧
    cacheNoCol 1 = some tblNoCol ∧
    lookupCol tblNoCol.Columns 7 = none ∧
    (∀ a b, errHist a b = .error ()) ∧ (∀ a b, errCms a b = .error ()) :=
  ⟨rfl, rfl, rfl, rfl, fun _ _ => rfl, fun _ _ => rfl⟩

/-- C8 amended: one step of `LoadNeededHistograms` behaves as follows —
a pending column whose table is missing from the cache is skipped with
its registry entry retained; the registry entry is removed without any
load exactly when the cached entry needs no load for it (the column is
absent from the entry's column map, or its histogram already has
buckets); otherwise the histogram and then the sketch are loaded, and a
storage failure makes the whole call return that error immediately, with
the registry and cache exactly as they stood — in particular the failing
column's entry (and every later pending column, none of which is
processed) stays registered; only after both loads succeed is the
rebuilt column published and the entry deleted. Deletion removes exactly
the requested pair from the registry. -/
theorem C8_load_amended (histS : Int → Int → Except Unit Histogram)
    (cmsS : Int → Int → Except Unit (Option CMSketch))
    (col : NeededCol) (rest : List NeededCol)
    (cache : StatsCache) (registry : List NeededCol) :
    (LoadNeededHistograms histS cmsS cache registry =
      loadNeededLoop histS cmsS registry cache registry) ∧
    (cache col.tableID = none →
      loadNeededLoop histS cmsS (col :: rest) cache registry =
        loadNeededLoop histS cmsS rest cache registry) ∧
    (∀ tbl, cache col.tableID = some tbl →
      lookupCol tbl.Columns col.columnID = none →
      loadNeededLoop histS cmsS (col :: rest) cache registry =
        loadNeededLoop histS cmsS rest cache (neededDelete registry col)) ∧
    (∀ tbl c, cache col.tableID = some tbl →
      lookupCol tbl.Columns col.columnID = some c →
      0 < c.histogram.bucketsLen →
      loadNeededLoop histS cmsS (col :: rest) cache registry =
        loadNeededLoop histS cmsS rest cache (neededDelete registry col)) ∧
    (∀ tbl c e, cache col.tableID = some tbl →
      lookupCol tbl.Columns col.columnID = some c →
      c.histogram.bucketsLen = 0 →
      histS col.tableID c.histogram.ID = .error e →
      loadNeededLoop histS cmsS (col :: rest) cache registry =
        ((cache, registry), some e)) ∧
    (∀ tbl c hg e, cache col.tableID = some tbl →
      lookupCol tbl.Columns col.columnID = some c →
      c.histogram.bucketsLen = 0 →
      histS col.tableID c.histogram.ID = .ok hg →
      cmsS col.tableID col.columnID = .error e →
      loadNeededLoop histS cmsS (col :: rest) cache registry =
        ((cache, registry), some e)) ∧
    (∀ tbl c hg cms, cache col.tableID = some tbl →
      lookupCol tbl.Columns col.columnID = some c →
      c.histogram.bucketsLen = 0 →
      histS col.tableID c.histogram.ID = .ok hg →
      cmsS col.tableID col.columnID = .ok cms →
      loadNeededLoop histS cmsS (col :: rest) cache registry =
        loadNeededLoop histS cmsS rest
          (fun k =>
            if k = tbl.TableID then
              some
                { tbl with
                  Columns :=
                    insertCol tbl.Columns c.histogram.ID
                      { Info := c.Info, histogram := hg, cmSketch := cms,
                        Count := hg.totalRowCount } }
            else cache k)
          (neededDelete registry col)) ∧
    (∀ x, x ∈ neededDelete registry col ↔ x ∈ registry ∧ x ≠ col) := by
  refine ⟨rfl, ?_, ?_, ?_, ?_, ?_, ?_, ?_⟩
  · intro hnone
    simp [loadNeededLoop, hnone]
  · intro tbl htbl hcol
    simp [loadNeededLoop, htbl, hcol]
  · intro tbl c htbl hcol hlen
    simp [loadNeededLoop, htbl, hcol, hlen]
  · intro tbl c e htbl hcol hlen hhist
    simp [loadNeededLoop, htbl, hcol, hlen, hhist]
  · intro tbl c hg e htbl hcol hlen hhist hcms
    simp [loadNeededLoop, htbl, hcol, hlen, hhist, hcms]
  · intro tbl c hg cms htbl hcol hlen hhist hcms
    simp [loadNeededLoop, htbl, hcol, hlen, hhist, hcms]
  · intro x
    simp [neededDelete]

/-- A column with an unloaded (zero-bucket) histogram, used by the C8
witness. -/
def colUnloaded : Column where
  Info := ⟨7⟩
  histogram := ⟨7, 0, 0⟩
  cmSketch := none
  Count := 0

/-- A cached table carrying column 7 unloaded, used by the C8 witness. -/
def tblWithCol : Table where
  TableID := 1
  Version := 0
  Count := 0
  ModifyCount := 0
  Pseudo := false
  Columns := [(7, colUnloaded)]

/-- A snapshot cache holding only `tblWithCol` under table ID 1. -/
def cacheWithCol : StatsCache := fun k => if k = 1 then some tblWithCol else none

/-- Witness for C8 amended: a failing histogram load for the pending
column (1, 7) aborts the call immediately and returns the registry with
the entry still present. -/
theorem C8_load_amended_w :
    (cacheWithCol 1 = some tblWithCol ∧
      lookupCol tblWithCol.Columns 7 = some colUnloaded ∧
      colUnloaded.histogram.bucketsLen = 0 ∧
      errHist 1 colUnloaded.histogram.ID = .error ()) ∧
    loadNeededLoop errHist errCms [⟨1, 7⟩] cacheWithCol [⟨1, 7⟩] =
      ((cacheWithCol, [⟨1, 7⟩]), some ()) :=
  ⟨⟨rfl, rfl, rfl, rfl⟩,
    (C8_load_amended errHist errCms ⟨1, 7⟩ [] cacheWithCol
        [⟨1, 7⟩]).2.2.2.2.1 tblWithCol colUnloaded () rfl rfl rfl rfl⟩

end Statistics
